import Mathlib

/-!
Verification development for the LearnQuest exam-proctoring repository.

The repository ships the React frontend (App / ProctoringComponent /
CertificateDisplay components) together with documentation (README,
installation and Docker guides).  The FastAPI backend modules
(behavior_scorer.py, main.py, video_processor.py, audio_processor.py) are
referenced by the documentation but their code is not part of the source
tree available here, so the backend engine is modelled from the
specification text and the constants recorded in the README (penalty
table, 5-second cooldown, -40 dB noise threshold, 3-second face-absence
persistence, 0.4/0.6 weighting, 85 certificate threshold).  The frontend
definitions are translated directly from the TypeScript source.

Scores, decibel levels and timestamps are modelled as rationals.
-/

namespace LearnQuest

/-- Modelled from the spec: ViolationType enumeration of behavior_scorer.py,
which is absent from the source tree (README section Violation Types). -/
inductive ViolationType where
  | faceAbsent
  | multipleFaces
  | noiseDetected
  | speechDetected
  | tabSwitch
  | headTurn
deriving DecidableEq

/-- Modelled from the spec: the static penalty table of behavior_scorer.py
(absent from the source tree); point values are those printed in the
README configuration section. -/
def pointsDeducted : ViolationType → ℕ
  | .faceAbsent => 5
  | .multipleFaces => 10
  | .noiseDetected => 3
  | .speechDetected => 5
  | .tabSwitch => 5
  | .headTurn => 3

/-- Modelled from the spec: cooldown window per violation type.  The README
states a 5-second cooldown between penalties for the same violation type. -/
def cooldownSeconds (_ : ViolationType) : ℚ := 5

/-- Modelled from the spec: a violation event as appended to the session
log by behavior_scorer.py (absent from the source tree): type, arrival
timestamp and whether the penalty was actually billed. -/
structure ViolationEvent where
  vtype : ViolationType
  timestamp : ℚ
  penaltyApplied : Bool
deriving DecidableEq

/-- Modelled from the spec: the Score Aggregator deduction
`score = max(0, score - points)` of behavior_scorer.py (absent from the
source tree). -/
def applyPenalty (score : ℚ) (points : ℕ) : ℚ := max 0 (score - points)

/-- Modelled from the spec: the per-session mutable state owned by the
proctoring engine (absent from the source tree): running behavior score,
last-penalty timestamp per violation type, and the append-only violation
log. -/
structure SessionState where
  score : ℚ
  lastPenalty : ViolationType → Option ℚ
  log : List ViolationEvent

/-- Modelled from the spec: the fresh session state, score 100, no
penalties recorded, empty log. -/
def initialState : SessionState :=
  { score := 100, lastPenalty := fun _ => none, log := [] }

/-- Modelled from the spec: the Penalty/Cooldown Policy plus Score
Aggregator step of behavior_scorer.py (absent from the source tree).  A
classified violation of type `v` arriving at time `now` is billable when
no penalty of that type was billed yet or the last one is at least the
cooldown window in the past; a billable violation deducts points, stamps
the last-penalty time and is logged with `penaltyApplied = true`; a
suppressed violation is logged with `penaltyApplied = false` and changes
nothing else. -/
def policyStep (s : SessionState) (v : ViolationType) (now : ℚ) : SessionState :=
  match s.lastPenalty v with
  | some t0 =>
    if now - t0 < cooldownSeconds v then
      { s with log := s.log ++ [⟨v, now, false⟩] }
    else
      { score := applyPenalty s.score (pointsDeducted v)
        lastPenalty := fun t => if t = v then some now else s.lastPenalty t
        log := s.log ++ [⟨v, now, true⟩] }
  | none =>
      { score := applyPenalty s.score (pointsDeducted v)
        lastPenalty := fun t => if t = v then some now else s.lastPenalty t
        log := s.log ++ [⟨v, now, true⟩] }

/-- Modelled from the spec: running the Policy plus Aggregator pipeline
over a sequence of classified violations, in arrival order. -/
def processLog (s : SessionState) : List (ViolationType × ℚ) → SessionState
  | [] => s
  | (v, t) :: rest => processLog (policyStep s v t) rest

/-- Modelled from the spec: a test submission as received by the
finalization endpoint of main.py (absent from the source tree). -/
structure TestSubmission where
  testScore : ℚ
  difficulty : String
deriving DecidableEq

/-- Certificate status values used by the repository. -/
inductive CertStatus where
  | issued
  | notIssued
deriving DecidableEq

/-- Modelled from the spec: the certificate decision persisted at
finalization. -/
structure CertificateDecision where
  finalScore : ℚ
  status : CertStatus
deriving DecidableEq

/-- Modelled from the spec: the Finalizer of main.py (absent from the
source tree).  The final score weighs the behavior score at 40 percent
and the test score at 60 percent, and the certificate is issued exactly
when the final score reaches 85. -/
def finalize (behaviorScore : ℚ) (sub : TestSubmission) : CertificateDecision :=
  let fs := 0.4 * behaviorScore + 0.6 * sub.testScore
  { finalScore := fs, status := if 85 ≤ fs then .issued else .notIssued }

/-- Modelled from the spec: an audio observation produced by the external
audio detector (audio_processor.py, absent from the source tree). -/
structure AudioResult where
  dbLevel : ℚ
  speechDetected : Bool
deriving DecidableEq

/-- Modelled from the spec: the audio branch of the Violation Classifier
(absent from the source tree).  Speech wins over noise; noise requires a
decibel level above the -40 dB ambient threshold; otherwise nothing is
emitted. -/
def classifyAudio (a : AudioResult) : Option ViolationType :=
  if a.speechDetected then some .speechDetected
  else if -40 < a.dbLevel then some .noiseDetected
  else none

/-- Modelled from the spec: ScoreState is derived, not stored; the events
of a violation log, as re-fed to the pipeline during a replay. -/
def eventsOf (log : List ViolationEvent) : List (ViolationType × ℚ) :=
  log.map fun e => (e.vtype, e.timestamp)

/-- Modelled from the spec: replaying the pipeline over a full violation
log starting from the fresh session state, returning the resulting score. -/
def replayScore (log : List ViolationEvent) : ℚ :=
  (processLog initialState (eventsOf log)).score

theorem applyPenalty_nonneg (s : ℚ) (p : ℕ) : 0 ≤ applyPenalty s p :=
  le_max_left _ _

theorem applyPenalty_le (s : ℚ) (p : ℕ) (h : 0 ≤ s) : applyPenalty s p ≤ s :=
  max_le h (sub_le_self _ (by positivity))

theorem policyStep_score_cases (s : SessionState) (v : ViolationType) (now : ℚ) :
    (policyStep s v now).score = s.score ∨
      (policyStep s v now).score = applyPenalty s.score (pointsDeducted v) := by
  unfold policyStep
  cases s.lastPenalty v with
  | none => right; rfl
  | some t0 =>
    dsimp only
    split
    · left; rfl
    · right; rfl

theorem policyStep_score_bounds (s : SessionState) (v : ViolationType) (now : ℚ)
    (h : 0 ≤ s.score) :
    0 ≤ (policyStep s v now).score ∧ (policyStep s v now).score ≤ s.score := by
  rcases policyStep_score_cases s v now with hc | hc <;> rw [hc]
  · exact ⟨h, le_refl _⟩
  · exact ⟨applyPenalty_nonneg _ _, applyPenalty_le _ _ h⟩

theorem processLog_score_bounds :
    ∀ (input : List (ViolationType × ℚ)) (s : SessionState), 0 ≤ s.score →
      0 ≤ (processLog s input).score ∧ (processLog s input).score ≤ s.score := by
  intro input
  induction input with
  | nil => exact fun s h => ⟨h, le_refl _⟩
  | cons o rest ih =>
    intro s h
    rcases o with ⟨v, t⟩
    have hstep := policyStep_score_bounds s v t h
    have hrec := ih (policyStep s v t) hstep.1
    exact ⟨hrec.1, le_trans hrec.2 hstep.2⟩

theorem processLog_append (l1 l2 : List (ViolationType × ℚ)) :
    ∀ s, processLog s (l1 ++ l2) = processLog (processLog s l1) l2 := by
  induction l1 with
  | nil => intro s; rfl
  | cons o rest ih =>
    intro s
    rcases o with ⟨v, t⟩
    simp only [List.cons_append, processLog]
    exact ih (policyStep s v t)

theorem policyStep_events (s : SessionState) (v : ViolationType) (now : ℚ) :
    eventsOf (policyStep s v now).log = eventsOf s.log ++ [(v, now)] := by
  unfold policyStep
  cases s.lastPenalty v with
  | none => simp [eventsOf]
  | some t0 =>
    dsimp only
    split <;> simp [eventsOf]

theorem processLog_events :
    ∀ (input : List (ViolationType × ℚ)) (s : SessionState),
      eventsOf (processLog s input).log = eventsOf s.log ++ input := by
  intro input
  induction input with
  | nil => intro s; simp [processLog]
  | cons o rest ih =>
    intro s
    rcases o with ⟨v, t⟩
    simp only [processLog]
    rw [ih (policyStep s v t), policyStep_events]
    simp

/-- Modelled from the spec: the per-session face-tracking state of the
video branch of the Violation Classifier (video_processor.py and
behavior_scorer.py, absent from the source tree): the
last-seen-present time and whether the current absence was already
reported. -/
structure FaceTrack where
  lastSeen : ℚ
  reported : Bool

/-- Modelled from the spec: state update of the face tracker on one video
observation.  A present frame refreshes the last-seen time and re-arms
reporting; an absent frame past the 3-second persistence window marks the
absence as reported; otherwise the state is unchanged. -/
def faceNext (s : FaceTrack) (facePresent : Bool) (now : ℚ) : FaceTrack :=
  if facePresent then { lastSeen := now, reported := false }
  else if 3 < now - s.lastSeen ∧ s.reported = false then { s with reported := true }
  else s

/-- Modelled from the spec: whether the face tracker emits a FaceAbsent
violation on one video observation: only on an absent frame, only past
the 3-second persistence window, and only if the current absence was not
reported yet. -/
def faceEmit (s : FaceTrack) (facePresent : Bool) (now : ℚ) : Bool :=
  if facePresent then false
  else if 3 < now - s.lastSeen ∧ s.reported = false then true
  else false

/-- Modelled from the spec: running the face tracker over a sequence of
(facePresent, timestamp) observations, returning the per-step emission
flags. -/
def runFace (s : FaceTrack) : List (Bool × ℚ) → List Bool
  | [] => []
  | (p, t) :: rest => faceEmit s p t :: runFace (faceNext s p t) rest

theorem faceEmit_true_iff (s : FaceTrack) (p : Bool) (now : ℚ) :
    faceEmit s p now = true ↔
      p = false ∧ 3 < now - s.lastSeen ∧ s.reported = false := by
  cases p <;> simp [faceEmit]

theorem faceNext_lastSeen_present (s : FaceTrack) (now : ℚ) :
    (faceNext s true now).lastSeen = now := by
  simp [faceNext]

theorem faceNext_lastSeen_absent (s : FaceTrack) (now : ℚ) :
    (faceNext s false now).lastSeen = s.lastSeen := by
  unfold faceNext
  split
  · simp_all
  · split <;> rfl

theorem faceNext_reported_stays (s : FaceTrack) (now : ℚ) (h : s.reported = true) :
    (faceNext s false now).reported = true := by
  unfold faceNext
  split
  · simp_all
  · split
    · rfl
    · exact h

theorem runFace_emit_gap :
    ∀ (obs : List (Bool × ℚ)) (s : FaceTrack) (i : ℕ) (o : Bool × ℚ),
      obs.Pairwise (fun a b => a.2 ≤ b.2) →
      (∀ o' ∈ obs, s.lastSeen ≤ o'.2) →
      (runFace s obs).get? i = some true → obs.get? i = some o →
      3 < o.2 - s.lastSeen := by
  intro obs
  induction obs with
  | nil => intro s i o _ _ hf _; simp [runFace] at hf
  | cons hd rest ih =>
    rcases hd with ⟨p, t⟩
    intro s i o hsort hlb hf ho
    rw [List.pairwise_cons] at hsort
    cases i with
    | zero =>
      simp only [runFace, List.get?_cons_zero, Option.some.injEq] at hf ho
      obtain ⟨_, hgap, _⟩ := (faceEmit_true_iff s p t).mp hf
      rw [← ho]
      exact hgap
    | succ i' =>
      simp only [runFace, List.get?_cons_succ] at hf ho
      have hlb' : ∀ o' ∈ rest, (faceNext s p t).lastSeen ≤ o'.2 := by
        intro o' ho'
        cases p
        · rw [faceNext_lastSeen_absent]
          exact hlb o' (List.mem_cons_of_mem _ ho')
        · rw [faceNext_lastSeen_present]
          exact hsort.1 o' ho'
      have hrec := ih (faceNext s p t) i' o hsort.2 hlb' hf ho
      have hmono : s.lastSeen ≤ (faceNext s p t).lastSeen := by
        cases p
        · rw [faceNext_lastSeen_absent]
        · rw [faceNext_lastSeen_present]
          exact hlb (true, t) (List.mem_cons_self _ _)
      linarith

theorem runFace_emit_only_when :
    ∀ (obs : List (Bool × ℚ)) (s : FaceTrack) (i : ℕ) (o : Bool × ℚ),
      obs.Pairwise (fun a b => a.2 ≤ b.2) →
      (∀ o' ∈ obs, s.lastSeen ≤ o'.2) →
      (runFace s obs).get? i = some true → obs.get? i = some o →
      o.1 = false ∧
      ∀ (j : ℕ) (o' : Bool × ℚ), j ≤ i → obs.get? j = some o' → o'.1 = true →
        3 < o.2 - o'.2 := by
  intro obs
  induction obs with
  | nil => intro s i o _ _ hf _; simp [runFace] at hf
  | cons hd rest ih =>
    rcases hd with ⟨p, t⟩
    intro s i o hsort hlb hf ho
    rw [List.pairwise_cons] at hsort
    cases i with
    | zero =>
      simp only [runFace, List.get?_cons_zero, Option.some.injEq] at hf ho
      obtain ⟨hp, _, _⟩ := (faceEmit_true_iff s p t).mp hf
      subst hp
      constructor
      · rw [← ho]
      · intro j o' hj hjo' ho'1
        interval_cases j
        simp only [List.get?_cons_zero, Option.some.injEq] at hjo'
        rw [← hjo'] at ho'1
        exact Bool.noConfusion ho'1
    | succ i' =>
      simp only [runFace, List.get?_cons_succ] at hf ho
      have hlb' : ∀ o' ∈ rest, (faceNext s p t).lastSeen ≤ o'.2 := by
        intro o' ho'
        cases p
        · rw [faceNext_lastSeen_absent]
          exact hlb o' (List.mem_cons_of_mem _ ho')
        · rw [faceNext_lastSeen_present]
          exact hsort.1 o' ho'
      have hrec := ih (faceNext s p t) i' o hsort.2 hlb' hf ho
      refine ⟨hrec.1, ?_⟩
      intro j o' hj hjo' ho'1
      cases j with
      | zero =>
        simp only [List.get?_cons_zero, Option.some.injEq] at hjo'
        subst hjo'
        simp only at ho'1
        subst ho'1
        have := runFace_emit_gap rest (faceNext s true t) i' o hsort.2 hlb' hf ho
        rw [faceNext_lastSeen_present] at this
        exact this
      | succ j' =>
        simp only [List.get?_cons_succ] at hjo'
        exact hrec.2 j' o' (Nat.succ_le_succ_iff.mp hj) hjo' ho'1

theorem runFace_reported_blocks :
    ∀ (obs : List (Bool × ℚ)) (s : FaceTrack) (i : ℕ),
      s.reported = true → (runFace s obs).get? i = some true →
      ∃ (k : ℕ) (o' : Bool × ℚ), k < i ∧ obs.get? k = some o' ∧ o'.1 = true := by
  intro obs
  induction obs with
  | nil => intro s i _ hf; simp [runFace] at hf
  | cons hd rest ih =>
    rcases hd with ⟨p, t⟩
    intro s i hrep hf
    cases i with
    | zero =>
      simp only [runFace, List.get?_cons_zero, Option.some.injEq] at hf
      obtain ⟨_, _, hrep'⟩ := (faceEmit_true_iff s p t).mp hf
      rw [hrep] at hrep'
      exact Bool.noConfusion hrep'
    | succ i' =>
      simp only [runFace, List.get?_cons_succ] at hf
      cases p with
      | true => exact ⟨0, (true, t), Nat.succ_pos _, rfl, rfl⟩
      | false =>
        obtain ⟨k, o', hk, hko', ho'⟩ :=
          ih (faceNext s false t) i' (faceNext_reported_stays s t hrep) hf
        exact ⟨k + 1, o', Nat.succ_lt_succ hk, by simpa using hko', ho'⟩

theorem runFace_once_per_absence :
    ∀ (obs : List (Bool × ℚ)) (s : FaceTrack) (i j : ℕ),
      i < j → (runFace s obs).get? i = some true →
      (runFace s obs).get? j = some true →
      ∃ (k : ℕ) (o' : Bool × ℚ), i < k ∧ k < j ∧ obs.get? k = some o' ∧ o'.1 = true := by
  intro obs
  induction obs with
  | nil => intro s i j _ hf _; simp [runFace] at hf
  | cons hd rest ih =>
    rcases hd with ⟨p, t⟩
    intro s i j hij hfi hfj
    cases j with
    | zero => exact absurd hij (Nat.not_lt_zero i)
    | succ j' =>
      simp only [runFace, List.get?_cons_succ] at hfj
      cases i with
      | zero =>
        simp only [runFace, List.get?_cons_zero, Option.some.injEq] at hfi
        obtain ⟨hp, hgap, hrep⟩ := (faceEmit_true_iff s p t).mp hfi
        subst hp
        have hrep' : (faceNext s false t).reported = true := by
          unfold faceNext
          rw [if_neg (by simp)]
          rw [if_pos ⟨hgap, hrep⟩]
        obtain ⟨k, o', hk, hko', ho'⟩ := runFace_reported_blocks rest _ j' hrep' hfj
        exact ⟨k + 1, o', Nat.succ_pos _, Nat.succ_lt_succ hk, by simpa using hko', ho'⟩
      | succ i' =>
        simp only [runFace, List.get?_cons_succ] at hfi
        obtain ⟨k, o', hk1, hk2, hko', ho'⟩ :=
          ih (faceNext s p t) i' j' (Nat.succ_lt_succ_iff.mp hij) hfi hfj
        exact ⟨k + 1, o', Nat.succ_lt_succ hk1, Nat.succ_lt_succ hk2, by simpa using hko', ho'⟩

/-- C1: for every behavior score b in [0,100] and test score t in [0,100],
finalize returns a decision whose finalScore equals 0.4 b + 0.6 t. -/
theorem finalize_finalScore_eq (b t : ℚ) (d : String)
    (hb0 : 0 ≤ b) (hb1 : b ≤ 100) (ht0 : 0 ≤ t) (ht1 : t ≤ 100) :
    (finalize b ⟨t, d⟩).finalScore = 0.4 * b + 0.6 * t := rfl

/-- Witness for C1: example scenario 1 of the spec, behavior 100 and test
score 90 give final score 94. -/
theorem finalize_finalScore_eq_witness :
    (0:ℚ) ≤ 100 ∧ (100:ℚ) ≤ 100 ∧ (0:ℚ) ≤ 90 ∧ (90:ℚ) ≤ 100 ∧
      (finalize 100 ⟨90, "medium"⟩).finalScore = 0.4 * 100 + 0.6 * 90 :=
  ⟨by norm_num, by norm_num, by norm_num, by norm_num,
    finalize_finalScore_eq 100 90 "medium" (by norm_num) (by norm_num)
      (by norm_num) (by norm_num)⟩

/-- C2: the certificate decision has status issued exactly when the final
score is at least 85; the threshold is inclusive. -/
theorem finalize_issued_iff (b : ℚ) (sub : TestSubmission) :
    (finalize b sub).status = .issued ↔ 85 ≤ (finalize b sub).finalScore := by
  unfold finalize
  dsimp only
  split
  · simp_all
  · simp_all

/-- C8: the audio classifier emits NoiseDetected exactly when the decibel
level exceeds -40 and the speech flag is clear, emits SpeechDetected
whenever the speech flag is set, and emits nothing when neither condition
holds. -/
theorem classifyAudio_spec (a : AudioResult) :
    (classifyAudio a = some .noiseDetected ↔ -40 < a.dbLevel ∧ a.speechDetected = false) ∧
    (a.speechDetected = true → classifyAudio a = some .speechDetected) ∧
    (a.speechDetected = false → a.dbLevel ≤ -40 → classifyAudio a = none) := by
  unfold classifyAudio
  rcases a with ⟨db, sp⟩
  cases sp <;> by_cases h : (-40:ℚ) < db <;>
    simp_all [not_le.mpr, not_lt.mp]

/-- Witness for C8: a -30 dB chunk without speech is classified as noise. -/
theorem classifyAudio_spec_witness :
    classifyAudio ⟨-30, false⟩ = some .noiseDetected :=
  (classifyAudio_spec ⟨-30, false⟩).1.mpr ⟨by norm_num, rfl⟩

/-- C4: the behavior score starts at 100, stays within [0,100] after every
mutation (every prefix of the processed event sequence), is monotonically
non-increasing as further events are processed, and a penalty of p points
takes the score from s to max(0, s - p). -/
theorem behavior_score_invariants :
    initialState.score = 100 ∧
    (∀ input : List (ViolationType × ℚ),
      0 ≤ (processLog initialState input).score ∧
        (processLog initialState input).score ≤ 100) ∧
    (∀ input extra : List (ViolationType × ℚ),
      (processLog initialState (input ++ extra)).score ≤
        (processLog initialState input).score) ∧
    (∀ (s : ℚ) (p : ℕ), applyPenalty s p = max 0 (s - p)) := by
  refine ⟨rfl, fun input => ?_, fun input extra => ?_, fun s p => rfl⟩
  · exact processLog_score_bounds input initialState (by norm_num [initialState])
  · rw [processLog_append]
    exact (processLog_score_bounds extra (processLog initialState input)
      (processLog_score_bounds input initialState (by norm_num [initialState])).1).2

/-- Separation relation between two logged events: whenever both are
billable events of the fixed type `v`, the later one is at least the
cooldown window after the earlier one. -/
def sep (W : ℚ) (v : ViolationType) (e1 e2 : ViolationEvent) : Prop :=
  e1.vtype = v → e1.penaltyApplied = true → e2.vtype = v → e2.penaltyApplied = true →
    W ≤ e2.timestamp - e1.timestamp

/-- Invariant carried through the policy pipeline for a fixed violation
type `v`: logged billable events of type `v` are pairwise separated by the
cooldown window, and each of them is no later than the recorded
last-penalty timestamp for `v`. -/
def CooldownInv (v : ViolationType) (s : SessionState) : Prop :=
  s.log.Pairwise (sep (cooldownSeconds v) v) ∧
  ∀ e ∈ s.log, e.vtype = v → e.penaltyApplied = true →
    ∃ t0, s.lastPenalty v = some t0 ∧ e.timestamp ≤ t0

theorem cooldownSeconds_nonneg (v : ViolationType) : 0 ≤ cooldownSeconds v := by
  norm_num [cooldownSeconds]

theorem policyStep_cooldownInv (v v' : ViolationType) (now : ℚ) (s : SessionState)
    (h : CooldownInv v s) : CooldownInv v (policyStep s v' now) := by
  obtain ⟨hpw, hlast⟩ := h
  unfold policyStep
  cases hlp : s.lastPenalty v' with
  | none =>
    constructor
    · rw [List.pairwise_append]
      refine ⟨hpw, List.pairwise_singleton _ _, ?_⟩
      intro e1 he1 e2 he2
      simp only [List.mem_singleton] at he2
      subst he2
      intro h1 h2 h3 h4
      exfalso
      dsimp at h3
      subst h3
      obtain ⟨t0, ht0, _⟩ := hlast e1 he1 h1 h2
      rw [hlp] at ht0
      exact Option.noConfusion ht0
    · intro e he h1 h2
      dsimp only at he ⊢
      rw [List.mem_append] at he
      by_cases hv : v = v'
      · subst hv
        rcases he with he | he
        · exfalso
          obtain ⟨t0, ht0, _⟩ := hlast e he h1 h2
          rw [hlp] at ht0
          exact Option.noConfusion ht0
        · simp only [List.mem_singleton] at he
          subst he
          exact ⟨now, by simp, le_refl _⟩
      · rcases he with he | he
        · obtain ⟨t0, ht0, hle⟩ := hlast e he h1 h2
          exact ⟨t0, by simp [hv, ht0], hle⟩
        · exfalso
          simp only [List.mem_singleton] at he
          subst he
          exact hv h1.symm
  | some t0 =>
    dsimp only
    split
    · -- suppressed: within the cooldown window
      constructor
      · rw [List.pairwise_append]
        refine ⟨hpw, List.pairwise_singleton _ _, ?_⟩
        intro e1 he1 e2 he2
        simp only [List.mem_singleton] at he2
        subst he2
        intro _ _ _ h4
        exact absurd h4 (by simp)
      · intro e he h1 h2
        dsimp only at he
        rw [List.mem_append] at he
        rcases he with he | he
        · exact hlast e he h1 h2
        · exfalso
          simp only [List.mem_singleton] at he
          subst he
          exact Bool.noConfusion h2
    · -- billable: outside the cooldown window
      rename_i hge
      rw [not_lt] at hge
      have ht0now : t0 ≤ now := by
        have := le_trans (cooldownSeconds_nonneg v') hge
        linarith
      constructor
      · rw [List.pairwise_append]
        refine ⟨hpw, List.pairwise_singleton _ _, ?_⟩
        intro e1 he1 e2 he2
        simp only [List.mem_singleton] at he2
        subst he2
        intro h1 h2 h3 h4
        dsimp at h3 ⊢
        subst h3
        obtain ⟨t1, ht1, hle1⟩ := hlast e1 he1 h1 h2
        rw [hlp] at ht1
        have ht1' : t0 = t1 := Option.some_injective _ ht1
        subst ht1'
        have : e1.timestamp ≤ t0 := hle1
        linarith
      · intro e he h1 h2
        dsimp only at he ⊢
        rw [List.mem_append] at he
        by_cases hv : v = v'
        · subst hv
          rcases he with he | he
          · obtain ⟨t1, ht1, hle1⟩ := hlast e he h1 h2
            rw [hlp] at ht1
            have ht1' : t0 = t1 := Option.some_injective _ ht1
            subst ht1'
            exact ⟨now, by simp, le_trans hle1 ht0now⟩
          · simp only [List.mem_singleton] at he
            subst he
            exact ⟨now, by simp, le_refl _⟩
        · rcases he with he | he
          · obtain ⟨t1, ht1, hle1⟩ := hlast e he h1 h2
            exact ⟨t1, by simp [hv, ht1], hle1⟩
          · exfalso
            simp only [List.mem_singleton] at he
            subst he
            exact hv h1.symm

theorem processLog_cooldownInv (v : ViolationType) :
    ∀ (input : List (ViolationType × ℚ)) (s : SessionState),
      CooldownInv v s → CooldownInv v (processLog s input) := by
  intro input
  induction input with
  | nil => exact fun s h => h
  | cons o rest ih =>
    intro s h
    rcases o with ⟨v', t⟩
    exact ih (policyStep s v' t) (policyStep_cooldownInv v v' t s h)

theorem initialState_cooldownInv (v : ViolationType) : CooldownInv v initialState := by
  constructor
  · exact List.Pairwise.nil
  · intro e he
    exact absurd he (List.not_mem_nil e)

theorem filter_length_le_one {α : Type} (l : List α) (R : α → α → Prop)
    (hp : l.Pairwise R) (p : α → Bool)
    (h : ∀ x y, p x = true → p y = true → R x y → False) :
    (l.filter p).length ≤ 1 := by
  have hp' : (l.filter p).Pairwise R := List.Pairwise.sublist (List.filter_sublist l) hp
  cases hfl : l.filter p with
  | nil => simp
  | cons x t =>
    cases t with
    | nil => simp
    | cons y t' =>
      exfalso
      rw [hfl] at hp'
      have hR : R x y := (List.pairwise_cons.mp hp').1 y (by simp)
      have hx : p x = true := List.of_mem_filter (l := l) (by rw [hfl]; simp)
      have hy : p y = true := List.of_mem_filter (l := l) (by rw [hfl]; simp)
      exact h x y hx hy hR

/-- C3: for a fixed violation type with cooldown window W, at most one
billable penalty of that type falls in any half-open time window of
length W, however many matching events arrive; and a violation of that
type arriving strictly inside the cooldown window is still appended to
the log with penaltyApplied false and leaves the score unchanged. -/
theorem cooldown_policy_spec :
    (∀ (input : List (ViolationType × ℚ)) (v : ViolationType) (a : ℚ),
      ((processLog initialState input).log.filter
        (fun e => decide (e.vtype = v ∧ e.penaltyApplied = true ∧
          a ≤ e.timestamp ∧ e.timestamp < a + cooldownSeconds v))).length ≤ 1) ∧
    (∀ (s : SessionState) (v : ViolationType) (now t0 : ℚ),
      s.lastPenalty v = some t0 → now - t0 < cooldownSeconds v →
        (policyStep s v now).log = s.log ++ [⟨v, now, false⟩] ∧
        (policyStep s v now).score = s.score) := by
  constructor
  · intro input v a
    have hinv := processLog_cooldownInv v input initialState (initialState_cooldownInv v)
    refine filter_length_le_one _ _ hinv.1 _ ?_
    intro x y hx hy hR
    rw [decide_eq_true_iff] at hx hy
    obtain ⟨hx1, hx2, hx3, _⟩ := hx
    obtain ⟨hy1, hy2, _, hy4⟩ := hy
    have := hR hx1 hx2 hy1 hy2
    linarith
  · intro s v now t0 hlp hlt
    unfold policyStep
    rw [hlp]
    dsimp only
    rw [if_pos hlt]
    exact ⟨rfl, rfl⟩

/-- Witness for C3: example scenario of the spec, a second TabSwitch one
second after a billed one is suppressed, logged unbilled, and the score
is untouched; and a concrete two-event log has at most one billed
TabSwitch in the window starting at time 0. -/
theorem cooldown_policy_spec_witness :
    (((processLog initialState [(ViolationType.tabSwitch, 0), (ViolationType.tabSwitch, 1)]).log.filter
      (fun e => decide (e.vtype = ViolationType.tabSwitch ∧ e.penaltyApplied = true ∧
        (0:ℚ) ≤ e.timestamp ∧ e.timestamp < 0 + cooldownSeconds ViolationType.tabSwitch))).length ≤ 1) ∧
    ((processLog initialState [(ViolationType.tabSwitch, 0)]).lastPenalty ViolationType.tabSwitch = some 0 ∧
      (1:ℚ) - 0 < cooldownSeconds ViolationType.tabSwitch ∧
      (policyStep (processLog initialState [(ViolationType.tabSwitch, 0)]) ViolationType.tabSwitch 1).log =
        (processLog initialState [(ViolationType.tabSwitch, 0)]).log ++ [⟨ViolationType.tabSwitch, 1, false⟩] ∧
      (policyStep (processLog initialState [(ViolationType.tabSwitch, 0)]) ViolationType.tabSwitch 1).score =
        (processLog initialState [(ViolationType.tabSwitch, 0)]).score) := by
  refine ⟨cooldown_policy_spec.1 _ ViolationType.tabSwitch 0, rfl, by norm_num [cooldownSeconds], ?_⟩
  exact cooldown_policy_spec.2 (processLog initialState [(ViolationType.tabSwitch, 0)])
    ViolationType.tabSwitch 1 0 rfl (by norm_num [cooldownSeconds])

/-- C5: replaying the pipeline over the full violation log of a session,
starting from the fresh state with score 100, reproduces exactly the
stored final behavior score. -/
theorem replay_reproduces_score (input : List (ViolationType × ℚ)) :
    replayScore ((processLog initialState input).log) =
      (processLog initialState input).score := by
  unfold replayScore
  rw [processLog_events input initialState]
  rfl

/-- C6: over any arrival-ordered observation sequence, a FaceAbsent
emission happens only on an absent frame more than 3 seconds after the
tracked last-seen-present time with every earlier present frame more than
3 seconds older; an absent frame with a present frame within the last 3
seconds never emits; and between any two emissions presence was regained,
so at most one emission occurs per continuous absence interval. -/
theorem face_absent_classifier_spec (obs : List (Bool × ℚ)) (s : FaceTrack)
    (hsort : obs.Pairwise (fun a b => a.2 ≤ b.2))
    (hlb : ∀ o ∈ obs, s.lastSeen ≤ o.2) :
    (∀ (i : ℕ) (o : Bool × ℚ), (runFace s obs).get? i = some true →
      obs.get? i = some o →
      o.1 = false ∧ 3 < o.2 - s.lastSeen ∧
        ∀ (j : ℕ) (o' : Bool × ℚ), j ≤ i → obs.get? j = some o' → o'.1 = true →
          3 < o.2 - o'.2) ∧
    (∀ (i j : ℕ) (o o' : Bool × ℚ), obs.get? i = some o → j ≤ i →
      obs.get? j = some o' → o'.1 = true → o.2 - o'.2 ≤ 3 →
      ¬(runFace s obs).get? i = some true) ∧
    (∀ (i j : ℕ), i < j → (runFace s obs).get? i = some true →
      (runFace s obs).get? j = some true →
      ∃ (k : ℕ) (o' : Bool × ℚ), i < k ∧ k < j ∧ obs.get? k = some o' ∧ o'.1 = true) := by
  refine ⟨?_, ?_, ?_⟩
  · intro i o hf ho
    obtain ⟨h1, h2⟩ := runFace_emit_only_when obs s i o hsort hlb hf ho
    exact ⟨h1, runFace_emit_gap obs s i o hsort hlb hf ho, h2⟩
  · intro i j o o' ho hj hjo' ho'1 hclose hf
    have := (runFace_emit_only_when obs s i o hsort hlb hf ho).2 j o' hj hjo' ho'1
    linarith
  · intro i j hij hfi hfj
    exact runFace_once_per_absence obs s i j hij hfi hfj

/-- Witness for C6: with the tracker started at time 0, two absent frames
at times 1 and 5 produce an emission at the second frame, and the
conclusions of the specification hold there. -/
theorem face_absent_classifier_spec_witness :
    ((false, (5:ℚ)).1 = false ∧
      3 < (false, (5:ℚ)).2 - (FaceTrack.mk 0 false).lastSeen ∧
      ∀ (j : ℕ) (o' : Bool × ℚ), j ≤ 1 →
        [((false:Bool), (1:ℚ)), ((false:Bool), (5:ℚ))].get? j = some o' →
        o'.1 = true → 3 < (false, (5:ℚ)).2 - o'.2) :=
  (face_absent_classifier_spec [((false:Bool), (1:ℚ)), ((false:Bool), (5:ℚ))]
      (FaceTrack.mk 0 false)
      (by norm_num [List.pairwise_cons])
      (by
        intro o ho
        simp only [List.mem_cons, List.not_mem_nil, or_false] at ho
        rcases ho with rfl | rfl <;> norm_num)).1
    1 (false, 5) (by norm_num [runFace, faceEmit, faceNext]) rfl

/-- Modelled from the spec: the session lifecycle states of the Session
State Machine (absent from the source tree). -/
inductive LifecycleState where
  | created
  | active
  | finalizing
  | closed
deriving DecidableEq

/-- Modelled from the spec: a proctoring session owned by the registry,
keyed by user and course, with its engine state and lifecycle state. -/
structure Session where
  userId : String
  courseId : String
  createdAt : ℚ
  engine : SessionState
  lifecycle : LifecycleState

/-- Modelled from the spec: a session is active while it has not reached
the terminal Closed state. -/
def isActive (s : Session) : Bool := decide (s.lifecycle ≠ LifecycleState.closed)

/-- Modelled from the spec: registry lookup of an active session for a
(userId, courseId) key. -/
def findActive (reg : List Session) (u c : String) : Option Session :=
  reg.find? fun s => s.userId == u && s.courseId == c && isActive s

/-- Modelled from the spec: the error raised on an attempt to create a
second active session for an already-active key. -/
inductive RegistryError where
  | duplicateSession
deriving DecidableEq

/-- Modelled from the spec: a freshly constructed session in the Created
lifecycle state with the fresh engine state. -/
def newSession (u c : String) (now : ℚ) : Session :=
  { userId := u, courseId := c, createdAt := now
    engine := initialState, lifecycle := LifecycleState.created }

/-- Modelled from the spec: getOrCreate of the Session Manager (absent
from the source tree).  If an active session exists for the key the call
fails with DuplicateSessionError and the registry is left untouched;
otherwise a new Created session is constructed and registered. -/
def getOrCreate (reg : List Session) (u c : String) (now : ℚ) :
    Except RegistryError Session × List Session :=
  match findActive reg u c with
  | some _ => (Except.error RegistryError.duplicateSession, reg)
  | none => (Except.ok (newSession u c now), newSession u c now :: reg)

/-- C7: when an active session exists for the key, getOrCreate fails with
DuplicateSessionError and returns the registry unchanged, so every
registered session, its score, log and lifecycle state included, is left
as it was; when no active session exists it constructs and registers a
new session in the Created state. -/
theorem getOrCreate_spec (reg : List Session) (u c : String) (now : ℚ) :
    (∀ s, findActive reg u c = some s →
      getOrCreate reg u c now = (Except.error RegistryError.duplicateSession, reg)) ∧
    (findActive reg u c = none →
      getOrCreate reg u c now =
        (Except.ok (newSession u c now), newSession u c now :: reg) ∧
      (newSession u c now).lifecycle = LifecycleState.created) := by
  constructor
  · intro s hs
    unfold getOrCreate
    rw [hs]
  · intro h
    unfold getOrCreate
    rw [h]
    exact ⟨rfl, rfl⟩

/-- Witness for C7: a registry holding one active session for the key
rejects a second creation and is returned unchanged, and the empty
registry accepts a creation in the Created state. -/
theorem getOrCreate_spec_witness :
    getOrCreate [newSession "u" "c" 0] "u" "c" 1 =
      (Except.error RegistryError.duplicateSession, [newSession "u" "c" 0]) ∧
    (getOrCreate [] "u" "c" 0 =
      (Except.ok (newSession "u" "c" 0), [newSession "u" "c" 0]) ∧
      (newSession "u" "c" 0).lifecycle = LifecycleState.created) :=
  ⟨(getOrCreate_spec [newSession "u" "c" 0] "u" "c" 1).1 (newSession "u" "c" 0) rfl,
   (getOrCreate_spec [] "u" "c" 0).2 rfl⟩

/-- Response payload of the submit-test endpoint as read by the frontend
(translated from handleTestComplete in ProctoringComponent). -/
structure SubmitResponse where
  final_score : ℚ
  certificate_status : String
deriving DecidableEq

/-- Translated from handleTestComplete in ProctoringComponent: the pair
of arguments passed to the onTestComplete callback.  A successful,
parseable response forwards its final score and certificate status; a
request error or unparseable response falls into the catch branch, which
invokes the callback with score 0 and status not_issued. -/
def handleTestComplete : Option SubmitResponse → ℚ × String
  | some r => (r.final_score, r.certificate_status)
  | none => (0, "not_issued")

/-- C9: when the submit-test request fails or its response cannot be
parsed, handleTestComplete invokes onTestComplete with final score 0 and
certificate status not_issued; on success it forwards the response
fields. -/
theorem handleTestComplete_failure_spec :
    handleTestComplete none = (0, "not_issued") ∧
    ∀ r, handleTestComplete (some r) = (r.final_score, r.certificate_status) :=
  ⟨rfl, fun _ => rfl⟩

/-- Steps of the frontend app (translated from App.tsx currentStep). -/
inductive AppStep where
  | setup
  | proctoring
  | results
deriving DecidableEq

/-- Frontend app state relevant to the setup screen (translated from the
useState hooks of App.tsx). -/
structure AppState where
  currentStep : AppStep
  userId : String
  courseId : String
  camera : Bool
  microphone : Bool
  setupComplete : Bool
deriving DecidableEq

/-- Translated from handleStartTest in App.tsx: when userId and courseId
are truthy (non-empty) and both media permissions are granted, mark setup
complete and move to the proctoring step; otherwise change nothing. -/
def handleStartTest (s : AppState) : AppState :=
  if s.userId ≠ "" ∧ s.courseId ≠ "" ∧ s.camera = true ∧ s.microphone = true then
    { s with setupComplete := true, currentStep := AppStep.proctoring }
  else s

/-- C10: handleStartTest moves to the proctoring step exactly when userId
and courseId are non-empty and both camera and microphone permission are
granted, leaving the identifying fields as entered; when any condition
fails the state, its step included, is completely unchanged. -/
theorem handleStartTest_spec (s : AppState) :
    ((s.userId ≠ "" ∧ s.courseId ≠ "" ∧ s.camera = true ∧ s.microphone = true) →
      (handleStartTest s).currentStep = AppStep.proctoring ∧
      (handleStartTest s).setupComplete = true ∧
      (handleStartTest s).userId = s.userId ∧
      (handleStartTest s).courseId = s.courseId ∧
      (handleStartTest s).camera = s.camera ∧
      (handleStartTest s).microphone = s.microphone) ∧
    (¬(s.userId ≠ "" ∧ s.courseId ≠ "" ∧ s.camera = true ∧ s.microphone = true) →
      handleStartTest s = s) := by
  constructor
  · intro h
    unfold handleStartTest
    rw [if_pos h]
    exact ⟨rfl, rfl, rfl, rfl, rfl, rfl⟩
  · intro h
    unfold handleStartTest
    rw [if_neg h]

/-- Witness for C10: a filled-in setup screen with both permissions moves
to proctoring; a missing userId leaves the state untouched. -/
theorem handleStartTest_spec_witness :
    ((handleStartTest (AppState.mk AppStep.setup "u1" "c1" true true false)).currentStep =
        AppStep.proctoring ∧
      (handleStartTest (AppState.mk AppStep.setup "u1" "c1" true true false)).setupComplete = true ∧
      (handleStartTest (AppState.mk AppStep.setup "u1" "c1" true true false)).userId = "u1" ∧
      (handleStartTest (AppState.mk AppStep.setup "u1" "c1" true true false)).courseId = "c1" ∧
      (handleStartTest (AppState.mk AppStep.setup "u1" "c1" true true false)).camera = true ∧
      (handleStartTest (AppState.mk AppStep.setup "u1" "c1" true true false)).microphone = true) ∧
    handleStartTest (AppState.mk AppStep.setup "" "c1" true true false) =
      AppState.mk AppStep.setup "" "c1" true true false :=
  ⟨(handleStartTest_spec (AppState.mk AppStep.setup "u1" "c1" true true false)).1
      (by refine ⟨?_, ?_, rfl, rfl⟩ <;> decide),
   (handleStartTest_spec (AppState.mk AppStep.setup "" "c1" true true false)).2
      (by intro h; exact h.1 rfl)⟩

end LearnQuest
